import Mathlib

/-!
# Verification of the Quorum log-forensics core

Shallow embedding of the analysis pipeline and multi-node aggregation layer
of the Quorum backend (severity banding, score calibration, percentile
labelling, feature extraction, sync-package export/import, model store),
with theorems settling the specification claims.
-/

namespace Quorum

/-! ## Severity banding

`AnalysisService._calculate_severity` (analysis_service.py) assigns the
severity stored on each persisted anomaly; `Anomaly.get_severity_level`
(models/anomaly.py) is the function used by `AnomalyBatch.get_summary` to
build the severity distribution of the batch summary.  Scores are modelled
as exact rationals.
-/

/-- `AnalysisService._calculate_severity`: band stored on persisted anomalies. -/
def calculateSeverity (score : ℚ) : String :=
  if 0.90 ≤ score then "CRITICAL"
  else if 0.75 ≤ score then "HIGH"
  else if 0.55 ≤ score then "MEDIUM"
  else "LOW"

/-- `Anomaly.get_severity_level`: band used by `AnomalyBatch.get_summary`. -/
def getSeverityLevel (score : ℚ) : String :=
  if 0.95 ≤ score then "CRITICAL"
  else if 0.85 ≤ score then "HIGH"
  else if 0.70 ≤ score then "MEDIUM"
  else "LOW"

/-- Number of anomalies of a batch counted into a given band by
`AnomalyBatch.get_summary` (which calls `get_severity_level` per anomaly). -/
def batchSeverityCount (scores : List ℚ) (band : String) : ℕ :=
  (scores.map getSeverityLevel).count band

/-- The severity band exactly as the spec words it:
CRITICAL ≥ 0.90, HIGH ≥ 0.75, MEDIUM ≥ 0.55, LOW otherwise. -/
def specSeverityBand (score : ℚ) : String :=
  if 0.90 ≤ score then "CRITICAL"
  else if 0.75 ≤ score then "HIGH"
  else if 0.55 ≤ score then "MEDIUM"
  else "LOW"

/-- C4 counterexample: at calibrated score 0.92 the spec band (and the stored
severity) is CRITICAL, but the batch-summary distribution counts the anomaly
as HIGH, because `get_severity_level` uses thresholds 0.95/0.85/0.70. -/
theorem severity_summary_counterexample :
    calculateSeverity 0.92 = "CRITICAL" ∧
    specSeverityBand 0.92 = "CRITICAL" ∧
    getSeverityLevel 0.92 = "HIGH" ∧
    batchSeverityCount [0.92] "CRITICAL" = 0 ∧
    batchSeverityCount [0.92] "HIGH" = 1 := by
  refine ⟨?_, ?_, ?_, ?_, ?_⟩ <;>
    (norm_num [calculateSeverity, specSeverityBand, getSeverityLevel,
      batchSeverityCount, List.count_cons, List.count_nil]
     <;> try decide)

set_option maxHeartbeats 1000000 in
/-- C4 (amended): the severity stored on each persisted anomaly follows the
spec band (CRITICAL ≥ 0.90, HIGH ≥ 0.75, MEDIUM ≥ 0.55, LOW otherwise), but
the severity distribution of the batch summary is computed by
`Anomaly.get_severity_level` with thresholds 0.95/0.85/0.70; the two
disagree exactly for scores in [0.55,0.70) ∪ [0.75,0.85) ∪ [0.90,0.95). -/
theorem severity_bands_amended (q : ℚ) :
    calculateSeverity q = specSeverityBand q ∧
    (getSeverityLevel q ≠ specSeverityBand q ↔
      (0.55 ≤ q ∧ q < 0.70) ∨ (0.75 ≤ q ∧ q < 0.85) ∨ (0.90 ≤ q ∧ q < 0.95)) := by
  refine ⟨rfl, ?_⟩
  unfold getSeverityLevel specSeverityBand
  rcases le_or_lt (0.95 : ℚ) q with h95 | h95 <;>
  rcases le_or_lt (0.90 : ℚ) q with h90 | h90 <;>
  rcases le_or_lt (0.85 : ℚ) q with h85 | h85 <;>
  rcases le_or_lt (0.75 : ℚ) q with h75 | h75 <;>
  rcases le_or_lt (0.70 : ℚ) q with h70 | h70 <;>
  rcases le_or_lt (0.55 : ℚ) q with h55 | h55 <;>
  first
  | linarith
  | (split_ifs <;> try linarith) <;> simp <;> first
    | (exact Or.inl ⟨by linarith, by linarith⟩)
    | (exact Or.inr (Or.inl ⟨by linarith, by linarith⟩))
    | (exact Or.inr (Or.inr ⟨by linarith, by linarith⟩))
    | (refine ⟨fun _ => by linarith, fun _ => by linarith, fun _ => by linarith⟩)
    | (rintro (⟨a, b⟩ | ⟨a, b⟩ | ⟨a, b⟩) <;> linarith)

/-! ## JSON encoding and sync-package signing

`HubService.export_sync_package` signs `json.dumps(package_dict).encode()`,
i.e. Python's default JSON encoding: object keys in dict insertion order,
with ", " between items and ": " after keys.  The spec instead prescribes a
canonical encoding (keys sorted, no extraneous whitespace).  Both encoders
are modelled below over a JSON value type; Python dict key order is kept as
list order.
-/

/-- JSON values; object fields keep insertion order like Python dicts. -/
inductive Json where
  | null : Json
  | bool (b : Bool) : Json
  | num (q : ℚ) : Json
  | str (s : String) : Json
  | arr (elems : List Json) : Json
  | obj (fields : List (String × Json)) : Json
deriving Repr

/-- Rendering of JSON numbers.  Only integer-valued numbers occur in the
packages modelled here, matching Python's rendering of ints. -/
def renderNum (q : ℚ) : String :=
  if q.den = 1 then toString q.num else toString q.num ++ "/" ++ toString q.den

/-- Minimal JSON string escaping (quote and backslash). -/
def escapeJson (s : String) : String :=
  String.join (s.toList.map (fun c =>
    if c = '"' ∨ c = '\\' then String.singleton '\\' ++ String.singleton c
    else String.singleton c))

def quoteJson (s : String) : String := "\"" ++ escapeJson s ++ "\""

mutual
/-- Python's `json.dumps` with default options: insertion-order keys,
item separator ", ", key separator ": ". -/
def pyDumps : Json → String
  | .null => "null"
  | .bool b => if b then "true" else "false"
  | .num q => renderNum q
  | .str s => quoteJson s
  | .arr xs => "[" ++ pyDumpsList xs ++ "]"
  | .obj fs => "\x7b" ++ pyDumpsFields fs ++ "\x7d"

def pyDumpsList : List Json → String
  | [] => ""
  | [x] => pyDumps x
  | x :: y :: xs => pyDumps x ++ ", " ++ pyDumpsList (y :: xs)

def pyDumpsFields : List (String × Json) → String
  | [] => ""
  | [kv] => quoteJson kv.1 ++ ": " ++ pyDumps kv.2
  | kv :: kv2 :: fs => quoteJson kv.1 ++ ": " ++ pyDumps kv.2 ++ ", " ++ pyDumpsFields (kv2 :: fs)
end

/-- Code-point lexicographic strict order on character lists (the order in
which Python compares strings when sorting JSON keys). -/
def charListLt : List Char → List Char → Bool
  | [], [] => false
  | [], _ :: _ => true
  | _ :: _, [] => false
  | a :: as, b :: bs =>
      if a.val < b.val then true
      else if b.val < a.val then false
      else charListLt as bs

def strLeb (a b : String) : Bool := !(charListLt b.toList a.toList)

/-- Stable insertion of a serialized field into a key-sorted list. -/
def insertSortedField (kv : String × String) : List (String × String) → List (String × String)
  | [] => [kv]
  | kv2 :: fs =>
      if strLeb kv.1 kv2.1 then kv :: kv2 :: fs else kv2 :: insertSortedField kv fs

/-- Sort serialized object fields by key (`sort_keys=True`). -/
def sortFieldsByKey : List (String × String) → List (String × String)
  | [] => []
  | kv :: fs => insertSortedField kv (sortFieldsByKey fs)

/-- Join already-serialized object fields in canonical style (":" and ","). -/
def joinCanonFields : List (String × String) → String
  | [] => ""
  | [kv] => quoteJson kv.1 ++ ":" ++ kv.2
  | kv :: kv2 :: fs => quoteJson kv.1 ++ ":" ++ kv.2 ++ "," ++ joinCanonFields (kv2 :: fs)

mutual
/-- Canonical JSON encoding as the spec words it: keys sorted, separators
"," and ":" with no extraneous whitespace (Python's
`json.dumps(x, sort_keys=True, separators=(",", ":"))`). -/
def canonDumps : Json → String
  | .null => "null"
  | .bool b => if b then "true" else "false"
  | .num q => renderNum q
  | .str s => quoteJson s
  | .arr xs => "[" ++ canonDumpsList xs ++ "]"
  | .obj fs =>
      "\x7b" ++ joinCanonFields (sortFieldsByKey (canonFields fs)) ++ "\x7d"

def canonDumpsList : List Json → String
  | [] => ""
  | [x] => canonDumps x
  | x :: y :: xs => canonDumps x ++ "," ++ canonDumpsList (y :: xs)

def canonFields : List (String × Json) → List (String × String)
  | [] => []
  | kv :: fs => (kv.1, canonDumps kv.2) :: canonFields fs
end

/-- The fields of `SyncPackage.to_dict`, in its insertion order. -/
structure SyncPackageData where
  package_id : String
  source_node : String
  target_node : String
  sync_method : String
  created_at : String
  anomalies : List Json
  logs_summary : List (String × Json)
  metadata : List (String × Json)
deriving Repr

/-- `SyncPackage.to_dict()` as a JSON object, keys in insertion order. -/
def packageFields (p : SyncPackageData) : List (String × Json) :=
  [("package_id", .str p.package_id),
   ("source_node", .str p.source_node),
   ("target_node", .str p.target_node),
   ("sync_method", .str p.sync_method),
   ("created_at", .str p.created_at),
   ("anomalies", .arr p.anomalies),
   ("logs_summary", .obj p.logs_summary),
   ("metadata", .obj p.metadata)]

def syncPackageJson (p : SyncPackageData) : Json := .obj (packageFields p)

/-- The bytes `export_sync_package` actually signs:
`json.dumps(package_dict).encode()` before the signature field is added. -/
def exportSignedPayload (p : SyncPackageData) : String :=
  pyDumps (syncPackageJson p)

/-- The canonical encoding the spec claims is signed (refinement reference). -/
def specCanonicalEncoding (p : SyncPackageData) : String :=
  canonDumps (syncPackageJson p)

/-- The JSON document written to the .qsp file: the package fields plus the
base64 signature (the file is additionally pretty-printed with indent=2,
which only changes whitespace, not the fields). -/
def writtenPackageFields (p : SyncPackageData) (sig : String) : List (String × Json) :=
  packageFields p ++ [("signature", .str sig)]

/-- A concrete exported package used to separate the two encodings. -/
def examplePackage : SyncPackageData :=
  { package_id := "p1"
    source_node := "node-a"
    target_node := "hub"
    sync_method := "usb"
    created_at := "2026-01-01T00:00:00"
    anomalies := []
    logs_summary := [("node_id", .str "node-a"), ("hostname", .str "h1")]
    metadata := [] }

/-- C8 counterexample: the bytes signed by `export_sync_package` are Python's
default `json.dumps` encoding, which is not the canonical (sorted-key,
whitespace-free) encoding the claim describes: on a concrete package the two
byte strings differ. -/
theorem export_signature_not_canonical :
    exportSignedPayload examplePackage ≠ specCanonicalEncoding examplePackage := by
  decide

/-- C8 (amended): the signature is an RSA-PSS-SHA256 signature computed over
Python's default `json.dumps` encoding — keys in dict insertion order with
", " and ": " separators, not sorted-key compact canonical JSON — of the
package dict before the signature field is added; the .qsp file then holds
exactly those fields plus the signature (re-serialized with indent=2, so the
file bytes themselves are not the signed bytes). -/
theorem export_signature_payload_amended (p : SyncPackageData) (sig : String) :
    (writtenPackageFields p sig).filter (fun kv => kv.1 ≠ "signature") = packageFields p ∧
    exportSignedPayload p =
      pyDumps (.obj ((writtenPackageFields p sig).filter (fun kv => kv.1 ≠ "signature"))) := by
  have hf : (writtenPackageFields p sig).filter (fun kv => kv.1 ≠ "signature")
      = packageFields p := by
    simp [writtenPackageFields, packageFields, List.filter_append]
  exact ⟨hf, by rw [hf]; rfl⟩

/-! ## Hub import (`HubService.import_sync_package`)

State-passing embedding of the hub-side tables touched by an import:
`node_registry`, `hub_anomalies` and `node_sync_log`.  Timestamps are
abstract ticks (`ℕ`).  `import_sync_package` parses the package file, never
looks at its `signature` field, registers the source node, merges anomalies
one by one with a read-probe on `(original_id, source_node)`, then inserts a
`node_sync_log` row — whose `sync_id` column is the table's PRIMARY KEY —
and finally updates the source node's stats.  DuckDB auto-commits each
statement, so a failing sync-log insert leaves the earlier merges in place.
-/

/-- An anomaly entry of a parsed sync package (the fields the import reads;
an absent or JSON-null 'id' is `none`). -/
structure PkgAnomaly where
  id : Option Int
  anomaly_score : ℚ
  severity : String
  algorithm : String
  mitre_technique_id : Option String
  mitre_tactic : Option String
  timestamp : Option String
  source : Option String
  event_type : Option String
  message : Option String
  hostname : Option String
  username : Option String
deriving Repr, DecidableEq

/-- The node snapshot carried in `logs_summary`. -/
structure NodeInfo where
  node_id : String
  hostname : String
  total_logs : ℕ
  total_anomalies : ℕ
deriving Repr, DecidableEq

/-- A parsed sync-package file as read by `import_sync_package`. -/
structure ImportPackage where
  package_id : String
  source_node : String
  anomalies : List PkgAnomaly
  logs_summary : Option NodeInfo
  signature : Option String
deriving Repr, DecidableEq

structure HubAnomalyRow where
  original_id : Option Int
  source_node : String
  anomaly_score : ℚ
  severity : String
  algorithm : String
  mitre_technique_id : Option String
  mitre_tactic : Option String
  log_timestamp : Option String
  source : Option String
  event_type : Option String
  message : String
  hostname : Option String
  username : Option String
  imported_at : ℕ
deriving Repr, DecidableEq

structure SyncLogRow where
  sync_id : String
  source_node : String
  target_node : String
  sync_method : String
  anomalies_synced : ℕ
  synced_at : ℕ
  package_path : String
deriving Repr, DecidableEq

structure NodeRow where
  node_id : String
  hostname : String
  status : String
  last_seen : Option ℕ
  last_sync : Option ℕ
  total_logs : ℕ
  total_anomalies : ℕ
deriving Repr, DecidableEq

structure HubState where
  node_registry : List NodeRow
  hub_anomalies : List HubAnomalyRow
  node_sync_log : List SyncLogRow
deriving Repr, DecidableEq

def emptyHub : HubState := ⟨[], [], []⟩

structure ImportResult where
  source_node : String
  anomalies_merged : ℕ
  total_in_package : ℕ
deriving Repr, DecidableEq

/-- SQL equality between a nullable column and a nullable probe value:
satisfied only when both are non-NULL and equal ("x = NULL" evaluates to
NULL, which a WHERE clause treats as not matching). -/
def sqlEqOpt (a b : Option Int) : Bool :=
  match a, b with
  | some x, some y => x == y
  | _, _ => false

/-- `HubService.register_remote_node` as called from the import path
(status forced to 'inactive'): upsert on `node_id`. -/
def registerRemoteNode (st : HubState) (now : ℕ) (info : NodeInfo) : HubState :=
  if st.node_registry.any (fun n => n.node_id == info.node_id) then
    { st with node_registry := st.node_registry.map (fun (n : NodeRow) =>
        if n.node_id == info.node_id then
          { n with hostname := info.hostname, status := "inactive",
                   last_seen := some now,
                   total_logs := info.total_logs,
                   total_anomalies := info.total_anomalies }
        else n) }
  else
    { st with node_registry := st.node_registry ++
        [{ node_id := info.node_id, hostname := info.hostname, status := "inactive",
           last_seen := some now, last_sync := none,
           total_logs := info.total_logs, total_anomalies := info.total_anomalies }] }

/-- Python's character-based slice `s[:n]`. -/
def stringTakeChars (n : ℕ) (s : String) : String := ⟨s.data.take n⟩

/-- The `hub_anomalies` row built by the INSERT inside the merge loop
(`(anomaly.get('message') or '')[:500]`). -/
def hubRowOfAnomaly (src : String) (now : ℕ) (a : PkgAnomaly) : HubAnomalyRow :=
  { original_id := a.id, source_node := src,
    anomaly_score := a.anomaly_score, severity := a.severity,
    algorithm := a.algorithm,
    mitre_technique_id := a.mitre_technique_id, mitre_tactic := a.mitre_tactic,
    log_timestamp := a.timestamp, source := a.source, event_type := a.event_type,
    message := stringTakeChars 500 (a.message.getD ""),
    hostname := a.hostname, username := a.username, imported_at := now }

/-- One iteration of the merge loop: probe `hub_anomalies` for
`original_id = ? AND source_node = ?` and skip on a hit, otherwise insert.
The unique index on `(original_id, source_node)` can never fire here,
because the probe matches exactly the non-NULL collisions the index would
reject (and the per-anomaly try/except would swallow it anyway). -/
def mergeStep (src : String) (now : ℕ) (acc : HubState × ℕ) (a : PkgAnomaly) :
    HubState × ℕ :=
  let (st, merged) := acc
  if st.hub_anomalies.any (fun r => sqlEqOpt r.original_id a.id && r.source_node == src) then
    (st, merged)
  else
    ({ st with hub_anomalies := st.hub_anomalies ++ [hubRowOfAnomaly src now a] },
     merged + 1)

/-- `HubService.import_sync_package`, given the parsed package.  The result
is `none` when the call raises: inserting the `node_sync_log` row with
`sync_id = package_id` violates that table's PRIMARY KEY if the same package
was imported before, and nothing catches the error — the merges already
executed stay committed.  The package's `signature` field is never read. -/
def importSyncPackage (st : HubState) (now : ℕ) (selfNode path : String)
    (p : ImportPackage) : HubState × Option ImportResult :=
  let st1 := match p.logs_summary with
    | some info => registerRemoteNode st now info
    | none => st
  let m := p.anomalies.foldl (mergeStep p.source_node now) (st1, 0)
  if m.1.node_sync_log.any (fun r => r.sync_id == p.package_id) then
    (m.1, none)
  else
    let st3 := { m.1 with node_sync_log := m.1.node_sync_log ++
      [({ sync_id := p.package_id, source_node := p.source_node,
          target_node := selfNode, sync_method := "usb",
          anomalies_synced := m.2, synced_at := now,
          package_path := path } : SyncLogRow)] }
    let newTotal := match p.logs_summary with
      | some i => i.total_anomalies
      | none => 0
    let st4 := { st3 with node_registry := st3.node_registry.map (fun (n : NodeRow) =>
        if n.node_id == p.source_node then
          { n with last_sync := some now, total_anomalies := newTotal }
        else n) }
    (st4, some { source_node := p.source_node, anomalies_merged := m.2,
                 total_in_package := p.anomalies.length })

/-- A package whose content was mutated after signing, so its signature can
no longer verify against any honest public key. -/
def tamperedPackage : ImportPackage :=
  { package_id := "pkg-1"
    source_node := "node-a"
    anomalies :=
      [{ id := some 1, anomaly_score := 0.97, severity := "CRITICAL",
         algorithm := "ensemble", mitre_technique_id := some "T1110",
         mitre_tactic := some "credential-access",
         timestamp := some "2026-01-01T00:00:00", source := some "sshd",
         event_type := none,
         message := some "Failed password for root from 10.0.0.1 port 22 [TAMPERED]",
         hostname := some "h1", username := some "root" }]
    logs_summary := some { node_id := "node-a", hostname := "h1",
                           total_logs := 100, total_anomalies := 1 }
    signature := some "AAAAinvalidsignatureAAAA" }

/-- C1: `import_sync_package` performs no signature verification at all.
The import is literally independent of the signature field, and a package
whose signature cannot verify (here: content tampered after signing) is
still imported in full — a `hub_anomalies` row, a `node_registry` upsert and
a `node_sync_log` row are all written, contradicting the claimed
reject-with-typed-error-and-write-nothing behaviour. -/
theorem import_never_verifies_signature :
    (∀ (st : HubState) (now : ℕ) (selfNode path : String) (p : ImportPackage)
       (s₁ s₂ : Option String),
       importSyncPackage st now selfNode path { p with signature := s₁ } =
       importSyncPackage st now selfNode path { p with signature := s₂ }) ∧
    (importSyncPackage emptyHub 0 "hub" "/usb/pkg.qsp" tamperedPackage).2 =
      some { source_node := "node-a", anomalies_merged := 1, total_in_package := 1 } ∧
    (importSyncPackage emptyHub 0 "hub" "/usb/pkg.qsp" tamperedPackage).1.hub_anomalies.length = 1 ∧
    (importSyncPackage emptyHub 0 "hub" "/usb/pkg.qsp" tamperedPackage).1.node_sync_log.length = 1 ∧
    (importSyncPackage emptyHub 0 "hub" "/usb/pkg.qsp" tamperedPackage).1.node_registry.length = 1 := by
  refine ⟨fun st now selfNode path p s₁ s₂ => rfl, ?_, ?_, ?_, ?_⟩ <;> rfl

/-- A well-formed three-anomaly package (all ids non-null), as in the spec's
round-trip sync scenario. -/
def threePackage : ImportPackage :=
  { package_id := "pkg-3"
    source_node := "node-a"
    anomalies :=
      [{ id := some 1, anomaly_score := 0.91, severity := "CRITICAL",
         algorithm := "ensemble", mitre_technique_id := none, mitre_tactic := none,
         timestamp := none, source := some "sshd", event_type := none,
         message := some "m1", hostname := none, username := none },
       { id := some 2, anomaly_score := 0.80, severity := "HIGH",
         algorithm := "ensemble", mitre_technique_id := none, mitre_tactic := none,
         timestamp := none, source := some "sudo", event_type := none,
         message := some "m2", hostname := none, username := none },
       { id := some 3, anomaly_score := 0.60, severity := "MEDIUM",
         algorithm := "ensemble", mitre_technique_id := none, mitre_tactic := none,
         timestamp := none, source := some "kernel", event_type := none,
         message := some "m3", hostname := none, username := none }]
    logs_summary := some { node_id := "node-a", hostname := "h1",
                           total_logs := 500, total_anomalies := 3 }
    signature := none }

/-- C6: importing the same package twice.  The first import merges all three
anomalies and writes one sync-log row.  The second import skips every
anomaly (probe hit on `(original_id, source_node)`), leaving `hub_anomalies`
unchanged — but then the `node_sync_log` insert reuses `sync_id =
package_id`, violates that table's PRIMARY KEY and raises, so the second
call fails and `node_sync_log` still has one row instead of the claimed
two. -/
theorem import_twice_sync_log_failure :
    (importSyncPackage emptyHub 0 "hub" "/usb/pkg.qsp" threePackage).1.hub_anomalies.length = 3 ∧
    ((importSyncPackage
        (importSyncPackage emptyHub 0 "hub" "/usb/pkg.qsp" threePackage).1
        1 "hub" "/usb/pkg.qsp" threePackage).2 = none) ∧
    ((importSyncPackage
        (importSyncPackage emptyHub 0 "hub" "/usb/pkg.qsp" threePackage).1
        1 "hub" "/usb/pkg.qsp" threePackage).1.hub_anomalies =
      (importSyncPackage emptyHub 0 "hub" "/usb/pkg.qsp" threePackage).1.hub_anomalies) ∧
    ((importSyncPackage
        (importSyncPackage emptyHub 0 "hub" "/usb/pkg.qsp" threePackage).1
        1 "hub" "/usb/pkg.qsp" threePackage).1.node_sync_log =
      (importSyncPackage emptyHub 0 "hub" "/usb/pkg.qsp" threePackage).1.node_sync_log) ∧
    (importSyncPackage emptyHub 0 "hub" "/usb/pkg.qsp" threePackage).1.node_sync_log.length = 1 := by
  refine ⟨?_, ?_, ?_, ?_, ?_⟩ <;> rfl

/-- A package holding a single anomaly whose 'id' field is null. -/
def nullIdPackage : ImportPackage :=
  { package_id := "pkg-null"
    source_node := "node-b"
    anomalies :=
      [{ id := none, anomaly_score := 0.88, severity := "HIGH",
         algorithm := "ensemble", mitre_technique_id := none, mitre_tactic := none,
         timestamp := none, source := some "auditd", event_type := none,
         message := some "null-id anomaly", hostname := none, username := none }]
    logs_summary := none
    signature := none }

/-- C10: the duplicate probe succeeds only on SQL equality of a non-null
original id (plus matching source node); a null/absent id never matches, so
such an anomaly is inserted again on every repeated import of the package
(the second import below re-inserts it before failing on the sync-log
primary key). -/
theorem null_id_never_deduplicated :
    (∀ (r : HubAnomalyRow) (i : Option Int), sqlEqOpt r.original_id i = true →
       ∃ v, r.original_id = some v ∧ i = some v) ∧
    (∀ (st : HubState) (merged : ℕ) (src : String) (now : ℕ) (a : PkgAnomaly),
       (mergeStep src now (st, merged) a = (st, merged) ↔
         ∃ r ∈ st.hub_anomalies,
           sqlEqOpt r.original_id a.id = true ∧ r.source_node = src)) ∧
    (∀ (st : HubState) (merged : ℕ) (src : String) (now : ℕ) (a : PkgAnomaly),
       a.id = none →
       (mergeStep src now (st, merged) a).1.hub_anomalies =
         st.hub_anomalies ++ [hubRowOfAnomaly src now a]) ∧
    ((importSyncPackage
        (importSyncPackage emptyHub 0 "hub" "/usb/pkg.qsp" nullIdPackage).1
        1 "hub" "/usb/pkg.qsp" nullIdPackage).1.hub_anomalies.length = 2) := by
  refine ⟨?_, ?_, ?_, ?_⟩
  · intro r i h
    rcases hr : r.original_id with _ | x
    · simp [sqlEqOpt, hr] at h
    · rcases hi : i with _ | y
      · simp [sqlEqOpt, hr, hi] at h
      · have hxy : x = y := by simpa [sqlEqOpt, hr, hi] using h
        exact ⟨x, rfl, by rw [hxy]⟩
  · intro st merged src now a
    by_cases hp :
        st.hub_anomalies.any
          (fun r => sqlEqOpt r.original_id a.id && r.source_node == src) = true
    · constructor
      · intro _
        rcases List.any_eq_true.mp hp with ⟨r, hr, hpr⟩
        have hpr' : sqlEqOpt r.original_id a.id = true ∧ (r.source_node == src) = true := by
          simpa using hpr
        exact ⟨r, hr, hpr'.1, by simpa using hpr'.2⟩
      · intro _
        simp [mergeStep, hp]
    · constructor
      · intro h
        exfalso
        have hl := congrArg (fun q => (Prod.fst q).hub_anomalies.length) h
        simp [mergeStep, hp] at hl
      · rintro ⟨r, hr, h1, h2⟩
        exact absurd (List.any_eq_true.mpr ⟨r, hr, by simp [h1, h2]⟩) hp
  · intro st merged src now a ha
    have hp : st.hub_anomalies.any
        (fun r => sqlEqOpt r.original_id a.id && r.source_node == src) = false := by
      rw [List.any_eq_false]
      intro r _
      rw [ha]
      cases r.original_id <;> simp [sqlEqOpt]
    simp [mergeStep, hp]
  · rfl

/-- C10 witness: the skip-iff characterization applied to a concrete state
holding the probe's target row. -/
theorem null_id_never_deduplicated_witness :
    sqlEqOpt (some 7) (some 7) = true ∧
    mergeStep "node-b" 1
      ({ emptyHub with
          hub_anomalies := [hubRowOfAnomaly "node-b" 0
            { id := some 7, anomaly_score := 0.5, severity := "LOW",
              algorithm := "ensemble", mitre_technique_id := none,
              mitre_tactic := none, timestamp := none, source := none,
              event_type := none, message := none, hostname := none,
              username := none }] }, 0)
      { id := some 7, anomaly_score := 0.5, severity := "LOW",
        algorithm := "ensemble", mitre_technique_id := none,
        mitre_tactic := none, timestamp := none, source := none,
        event_type := none, message := none, hostname := none,
        username := none } =
      ({ emptyHub with
          hub_anomalies := [hubRowOfAnomaly "node-b" 0
            { id := some 7, anomaly_score := 0.5, severity := "LOW",
              algorithm := "ensemble", mitre_technique_id := none,
              mitre_tactic := none, timestamp := none, source := none,
              event_type := none, message := none, hostname := none,
              username := none }] }, 0) := by
  constructor
  · rfl
  · exact (null_id_never_deduplicated.2.1 _ 0 "node-b" 1 _).mpr
      ⟨_, List.mem_singleton.mpr rfl, rfl, rfl⟩

/-! ## Analysis session manager (`AnalysisService`)

State-passing embedding of `analyze_logs` and `get_session_results` over the
`logs`, `anomalies` and `analysis_sessions` tables.  Timestamps are abstract
ticks.  The detectors and feature extraction are abstracted into a
`detector` oracle returning (predictions, calibrated scores) per chunk —
`analyze_logs` itself only consumes those two vectors.  Log columns other
than `id`/`timestamp` feed only that oracle and are omitted.  The MITRE
enrichment step only fills the two technique columns of already-inserted
anomaly rows, none of which are tracked here.
-/

structure LogRow where
  id : ℕ
  timestamp : ℕ
deriving Repr, DecidableEq

structure AnomalyTableRow where
  log_id : ℕ
  anomaly_score : ℚ
  severity : String
  detected_at : ℕ
deriving Repr, DecidableEq

structure SessionRow where
  session_id : String
  start_time : ℕ
  end_time : Option ℕ
  status : String
  logs_analyzed : ℕ
  anomalies_detected : ℕ
deriving Repr, DecidableEq

structure AnalysisState where
  logs : List LogRow
  anomalies : List AnomalyTableRow
  analysis_sessions : List SessionRow
deriving Repr, DecidableEq

structure AnalyzeResult where
  session_id : String
  status : String
  logs_analyzed : ℕ
  anomalies_detected : ℕ
deriving Repr, DecidableEq

/-- `AnalysisService._load_logs`: filter by the optional time window,
ordered by timestamp. -/
def loadLogs (logs : List LogRow) (startT endT : Option ℕ) : List LogRow :=
  List.insertionSort (fun a b => a.timestamp ≤ b.timestamp)
    (logs.filter (fun l =>
      (match startT with | some s => decide (s ≤ l.timestamp) | none => true) &&
      (match endT with | some e => decide (l.timestamp ≤ e) | none => true)))

/-- `AI_LARGE_DATASET_THRESHOLD` default. -/
def largeDatasetThreshold : ℕ := 100000

/-- Split a list into consecutive chunks of size `k`
(`for offset in range(0, total, chunk_size)`). -/
def chunkList : ℕ → List α → List (List α)
  | _, [] => []
  | 0, _ :: _ => []
  | k + 1, x :: xs => (x :: xs).take (k + 1) :: chunkList (k + 1) (xs.drop k)
termination_by k xs => xs.length
decreasing_by
  simp only [List.length_drop, List.length_cons]
  omega

/-- `AnalysisService._build_anomalies`: keep rows with prediction −1 and
score ≥ threshold; severity comes from `_calculate_severity`. -/
def buildAnomalies (chunk : List LogRow) (scores : List ℚ) (preds : List Int)
    (threshold : ℚ) (now : ℕ) : List AnomalyTableRow :=
  ((chunk.zip (scores.zip preds)).filter
      (fun x => x.2.2 == -1 && decide (threshold ≤ x.2.1))).map
    (fun x => { log_id := x.1.id, anomaly_score := x.2.1,
                severity := calculateSeverity x.2.1, detected_at := now })

/-- `AnalysisService.analyze_logs`.  When the window matches zero logs the
function returns early with a completed result — without ever updating the
`analysis_sessions` row it just created, which therefore remains in status
"running".  (The `except` handler that sets status "failed" is the only
other path that skips the completed update.) -/
def analyzeLogs (detector : List LogRow → List Int × List ℚ)
    (st : AnalysisState) (sid : String) (now : ℕ)
    (startT endT : Option ℕ) (threshold : ℚ) : AnalysisState × AnalyzeResult :=
  let st1 : AnalysisState := { st with analysis_sessions := st.analysis_sessions ++
    [({ session_id := sid, start_time := now, end_time := none, status := "running",
        logs_analyzed := 0, anomalies_detected := 0 } : SessionRow)] }
  let logsData := loadLogs st.logs startT endT
  let total := logsData.length
  if total = 0 then
    (st1, { session_id := sid, status := "completed",
            logs_analyzed := 0, anomalies_detected := 0 })
  else
    let chunkSize := if largeDatasetThreshold < total then 10000 else total
    let anomalies := ((chunkList chunkSize logsData).map (fun c =>
        let r := detector c
        buildAnomalies c r.2 r.1 threshold now)).join
    let st2 := { st1 with anomalies := st1.anomalies ++ anomalies }
    let st3 := { st2 with analysis_sessions := st2.analysis_sessions.map (fun (s : SessionRow) =>
        if s.session_id == sid then
          { s with status := "completed", logs_analyzed := total,
                   anomalies_detected := anomalies.length, end_time := some now }
        else s) }
    (st3, { session_id := sid, status := "completed", logs_analyzed := total,
            anomalies_detected := anomalies.length })

/-- `AnalysisService.get_session_results`: the session row plus the
anomalies joined to `logs` with `detected_at ≥ session.start_time`, ordered
by score descending. -/
def getSessionResults (st : AnalysisState) (sid : String) :
    Option (SessionRow × List AnomalyTableRow) :=
  match st.analysis_sessions.find? (fun s => s.session_id == sid) with
  | none => none
  | some s =>
      some (s, List.insertionSort (fun a b => b.anomaly_score ≤ a.anomaly_score)
        (st.anomalies.filter (fun a =>
          st.logs.any (fun l => l.id == a.log_id) &&
          decide (s.start_time ≤ a.detected_at))))

/-- C2: on a window with zero matching logs, `analyze` does return
completed/0/0 and writes no anomalies — but it returns before closing the
session, so the `analysis_sessions` row stays in status "running" and a
subsequent `get_session_results` reports "running", not a status in
\x7bcompleted, failed\x7d. -/
theorem analyze_empty_window_session_left_running
    (detector : List LogRow → List Int × List ℚ) (threshold : ℚ) (now : ℕ) :
    (analyzeLogs detector ⟨[], [], []⟩ "sess-1" now none none threshold).2 =
      { session_id := "sess-1", status := "completed",
        logs_analyzed := 0, anomalies_detected := 0 } ∧
    (analyzeLogs detector ⟨[], [], []⟩ "sess-1" now none none threshold).1.anomalies = [] ∧
    getSessionResults
        (analyzeLogs detector ⟨[], [], []⟩ "sess-1" now none none threshold).1 "sess-1" =
      some ({ session_id := "sess-1", start_time := now, end_time := none,
              status := "running", logs_analyzed := 0, anomalies_detected := 0 }, []) := by
  exact ⟨rfl, rfl, rfl⟩

/-- C2 witness: the evaluation above at a fixed detector and time. -/
theorem analyze_empty_window_witness :
    getSessionResults
        (analyzeLogs (fun _ => ([], [])) ⟨[], [], []⟩ "sess-1" 5 none none 0.7).1
        "sess-1" =
      some ({ session_id := "sess-1", start_time := 5, end_time := none,
              status := "running", logs_analyzed := 0, anomalies_detected := 0 }, []) :=
  (analyze_empty_window_session_left_running (fun _ => ([], [])) 0.7 5).2.2

/-! ## Model store (`build_model_metadata` / `validate_model_metadata` and
`StatisticalDetector.save` / `load`)

The metadata checksum is SHA-256 over the canonical (sorted-key) JSON of the
metadata minus the checksum field; the hash function itself is modelled by
that canonical serialization (an injective stand-in — collision resistance
is outside the model, and no proved statement relies on injectivity).  The
saved file is modelled as parsed content: missing, undeserializable, the
current `{params, metadata}` layout, or the legacy params-only layout.
-/

/-- The hyperparameters `StatisticalDetector._model_params` exposes. -/
structure StatParams where
  method : String
  threshold : ℚ
deriving Repr, DecidableEq

/-- The full params dict written by `StatisticalDetector.save`. -/
structure SavedStatParams where
  method : String
  threshold : ℚ
  means : Option (List ℚ)
  stds : Option (List ℚ)
  q1 : Option (List ℚ)
  q3 : Option (List ℚ)
  iqr : Option (List ℚ)
deriving Repr, DecidableEq

structure ModelMetadata where
  model_name : String
  metadata_version : String
  n_features : ℕ
  params : StatParams
  created_at : String
  checksum : String
deriving Repr, DecidableEq

/-- The metadata dict minus the checksum, as a JSON object. -/
def metaCoreJson (name version : String) (nf : ℕ) (params : StatParams)
    (createdAt : String) : Json :=
  .obj [("model_name", .str name),
        ("metadata_version", .str version),
        ("n_features", .num nf),
        ("params", .obj [("method", .str params.method),
                         ("threshold", .num params.threshold)]),
        ("created_at", .str createdAt)]

/-- SHA-256 hex digest of `json.dumps(meta_minus_checksum, sort_keys=True)`,
modelled by the canonical serialization itself. -/
def metaChecksum (name version : String) (nf : ℕ) (params : StatParams)
    (createdAt : String) : String :=
  canonDumps (metaCoreJson name version nf params createdAt)

/-- `build_model_metadata` (MODEL_METADATA_VERSION = "1.0", no extras). -/
def buildModelMetadata (name : String) (nf : ℕ) (params : StatParams)
    (createdAt : String) : ModelMetadata :=
  { model_name := name, metadata_version := "1.0", n_features := nf,
    params := params, created_at := createdAt,
    checksum := metaChecksum name "1.0" nf params createdAt }

/-- `validate_model_metadata`: falsy checksum, digest mismatch, name
mismatch, feature-arity mismatch, then hyperparameter comparison. -/
def validateModelMetadata (m : ModelMetadata) (name : String) (nf : ℕ)
    (params : StatParams) : Bool :=
  if m.checksum = "" then false
  else if ¬ m.checksum = metaChecksum m.model_name m.metadata_version
      m.n_features m.params m.created_at then false
  else if ¬ m.model_name = name then false
  else if ¬ m.n_features = nf then false
  else decide (m.params = params)

/-- In-memory state of a `StatisticalDetector`. -/
structure StatState where
  method : String
  threshold : ℚ
  means : Option (List ℚ)
  stds : Option (List ℚ)
  q1 : Option (List ℚ)
  q3 : Option (List ℚ)
  iqr : Option (List ℚ)
  is_fitted : Bool
deriving Repr, DecidableEq

/-- What `StatisticalDetector.save` finds in (or leaves on) disk. -/
inductive StoredFile where
  | missing : StoredFile
  | corrupt : StoredFile
  | versioned (params : SavedStatParams) (metadata : ModelMetadata) : StoredFile
  | legacy (params : SavedStatParams) : StoredFile
deriving Repr, DecidableEq

def statModelParams (st : StatState) : StatParams := ⟨st.method, st.threshold⟩

/-- Feature arity recorded at save time: `len(means)` for z-score models,
else `len(q1)` for IQR models, else 0. -/
def statNFeatures (st : StatState) : ℕ :=
  match st.means with
  | some ms => ms.length
  | none =>
      match st.q1 with
      | some q => q.length
      | none => 0

/-- `StatisticalDetector.save`: an unfitted detector writes nothing (the
file keeps its prior content). -/
def statSave (st : StatState) (createdAt : String) (prior : StoredFile) : StoredFile :=
  if st.is_fitted then
    .versioned ⟨st.method, st.threshold, st.means, st.stds, st.q1, st.q3, st.iqr⟩
      (buildModelMetadata "statistical" (statNFeatures st) (statModelParams st) createdAt)
  else prior

/-- Assigning the loaded params dict onto the detector. -/
def statApplyParams (p : SavedStatParams) : StatState :=
  { method := p.method, threshold := p.threshold, means := p.means,
    stds := p.stds, q1 := p.q1, q3 := p.q3, iqr := p.iqr, is_fitted := true }

/-- `StatisticalDetector.load`: false on a missing file or a deserialization
error; metadata is validated only when an expected arity was passed and the
file has the versioned layout; the legacy layout is accepted unchecked. -/
def statLoad (st : StatState) (file : StoredFile) (nFeatures : Option ℕ) :
    StatState × Bool :=
  match file with
  | .missing => (st, false)
  | .corrupt => (st, false)
  | .versioned p m =>
      match nFeatures with
      | some k =>
          if validateModelMetadata m "statistical" k (statModelParams st) then
            (statApplyParams p, true)
          else (st, false)
      | none => (statApplyParams p, true)
  | .legacy p => (statApplyParams p, true)

/-- The canonical serialization of an object is never the empty string. -/
theorem canonDumps_obj_ne_empty (fs : List (String × Json)) :
    canonDumps (.obj fs) ≠ "" := by
  intro h
  have hl := congrArg String.length h
  rw [show canonDumps (.obj fs)
      = "\x7b" ++ (joinCanonFields (sortFieldsByKey (canonFields fs)) ++ "\x7d") by
    simp [canonDumps, String.append_assoc]] at hl
  have h1 : ("\x7b" : String).length = 1 := rfl
  have h0 : ("" : String).length = 0 := rfl
  simp only [String.length_append, h1, h0] at hl
  omega

/-- The metadata checksum is never the empty string. -/
theorem metaChecksum_ne_empty (name version : String) (nf : ℕ) (params : StatParams)
    (createdAt : String) : metaChecksum name version nf params createdAt ≠ "" := by
  unfold metaChecksum metaCoreJson
  exact canonDumps_obj_ne_empty _

/-- C9: model-store round trip.  Saving a fitted detector and loading with
the same expectations restores the identical detector state with result
true; expecting a different feature arity yields false and leaves the
detector untouched; and load returns false on a missing file, a
deserialization failure, a checksum mismatch, a model-name mismatch, or a
hyperparameter mismatch. -/
theorem model_store_roundtrip (st st₂ : StatState) (c : String)
    (prior : StoredFile) (hfit : st.is_fitted = true) :
    statLoad st (statSave st c prior) (some (statNFeatures st)) = (st, true) ∧
    (∀ k, k ≠ statNFeatures st →
      statLoad st (statSave st c prior) (some k) = (st, false)) ∧
    statLoad st .missing (some (statNFeatures st)) = (st, false) ∧
    statLoad st .corrupt (some (statNFeatures st)) = (st, false) ∧
    (∀ p m k, m.checksum ≠ metaChecksum m.model_name m.metadata_version
        m.n_features m.params m.created_at →
      statLoad st (.versioned p m) (some k) = (st, false)) ∧
    (∀ p m k, m.checksum = metaChecksum m.model_name m.metadata_version
        m.n_features m.params m.created_at →
      m.model_name ≠ "statistical" →
      statLoad st (.versioned p m) (some k) = (st, false)) ∧
    (statModelParams st₂ ≠ statModelParams st →
      statLoad st₂ (statSave st c prior) (some (statNFeatures st)) = (st₂, false)) := by
  have hne : metaChecksum "statistical" "1.0" (statNFeatures st) (statModelParams st) c ≠ "" :=
    metaChecksum_ne_empty _ _ _ _ _
  have hval : validateModelMetadata
      (buildModelMetadata "statistical" (statNFeatures st) (statModelParams st) c)
      "statistical" (statNFeatures st) (statModelParams st) = true := by
    simp [validateModelMetadata, buildModelMetadata, hne]
  refine ⟨?_, ?_, rfl, rfl, ?_, ?_, ?_⟩
  · have happ : statApplyParams
        ⟨st.method, st.threshold, st.means, st.stds, st.q1, st.q3, st.iqr⟩ = st := by
      cases st
      simp_all [statApplyParams]
    simp [statSave, hfit, statLoad, hval, happ]
  · intro k hk
    have hval2 : validateModelMetadata
        (buildModelMetadata "statistical" (statNFeatures st) (statModelParams st) c)
        "statistical" k (statModelParams st) = false := by
      simp [validateModelMetadata, buildModelMetadata, hne, Ne.symm hk]
    simp [statSave, hfit, statLoad, hval2]
  · intro p m k hsum
    by_cases h0 : m.checksum = ""
    · simp [statLoad, validateModelMetadata, h0]
    · simp [statLoad, validateModelMetadata, h0, hsum]
  · intro p m k hsum hname
    have h0 : m.checksum ≠ "" := by
      rw [hsum]
      exact metaChecksum_ne_empty _ _ _ _ _
    simp [statLoad, validateModelMetadata, h0, hsum, hname]
  · intro hpar
    have hps : statModelParams st ≠ statModelParams st₂ := Ne.symm hpar
    have hval3 : validateModelMetadata
        (buildModelMetadata "statistical" (statNFeatures st) (statModelParams st) c)
        "statistical" (statNFeatures st) (statModelParams st₂) = false := by
      simp [validateModelMetadata, buildModelMetadata, hne, hps]
    simp [statSave, hfit, statLoad, hval3]

/-- A concrete fitted z-score detector for the round-trip witness. -/
def exampleStat : StatState :=
  { method := "zscore", threshold := 3, means := some [1, 2], stds := some [1, 1],
    q1 := none, q3 := none, iqr := none, is_fitted := true }

/-- C9 witness: the round-trip theorem instantiated at a concrete fitted
detector — reload with arity 2 succeeds and restores the state, reload
expecting arity 3 is rejected. -/
theorem model_store_roundtrip_witness :
    statLoad exampleStat (statSave exampleStat "t0" .missing) (some 2) =
      (exampleStat, true) ∧
    statLoad exampleStat (statSave exampleStat "t0" .missing) (some 3) =
      (exampleStat, false) := by
  have H := model_store_roundtrip exampleStat exampleStat "t0" .missing rfl
  exact ⟨H.1, H.2.1 3 (by decide)⟩

/-! ## Feature extractor (`FeatureExtractor.extract_batch`)

Values are exact rationals, so every matrix entry is finite by construction;
the substantive bound proved below is that every entry is a well-defined
nonnegative rational.  Python's per-process randomized `hash(str)` is
modelled by a fixed deterministic stand-in (only its value mod 10000 flows
into the matrix), and the two regex features are modelled by executable
scanners for the same patterns; no theorem depends on their exact match
semantics, only on the resulting entry being 0 or 1.
-/

/-- The parts of a datetime the extractor reads. -/
structure PyDateTime where
  hour : ℕ
  weekday : ℕ
deriving Repr, DecidableEq

/-- A log record as a dict row (optional fields may be absent/None). -/
structure LogRec where
  timestamp : Option PyDateTime
  source : Option String
  event_id : Option String
  event_type : Option String
  severity : Option String
  message : Option String
  hostname : Option String
  username : Option String
  process_name : Option String
  process_id : Option Int
deriving Repr, DecidableEq

/-- Python truthiness of an optional string (None and "" are falsy). -/
def pyTruthy : Option String → Bool
  | none => false
  | some s => !s.isEmpty

/-- `(value or default)` over optional strings. -/
def orDefault (o : Option String) (d : String) : String :=
  match o with
  | some s => if s.isEmpty then d else s
  | none => d

def strLower (s : String) : String := ⟨s.data.map Char.toLower⟩

/-- Bool test that `needle` starts `hay`. -/
def charsPrefixOf : List Char → List Char → Bool
  | [], _ => true
  | _ :: _, [] => false
  | a :: as, b :: bs => a == b && charsPrefixOf as bs

/-- Python's `needle in hay` substring containment on characters. -/
def containsSub (hay : List Char) (needle : List Char) : Bool :=
  match hay with
  | [] => needle.isEmpty
  | _ :: rest => charsPrefixOf needle hay || containsSub rest needle

/-- `RISK_KEYWORDS` (feature_extractor.py), in source order. -/
def riskKeywords : List (String × ℚ) :=
  [("failed password", 0.95), ("authentication failed", 0.95),
   ("invalid user", 0.90), ("sasl login", 0.88), ("failed mfa", 0.97),
   ("suspicious command", 0.98), ("unauthorized", 0.93),
   ("brute", 0.96), ("exploit", 0.99), ("rootkit", 1.0),
   ("failed", 0.65), ("error", 0.55), ("warning", 0.45),
   ("denied", 0.70), ("rejected", 0.68), ("blocked", 0.60),
   ("sudo", 0.55), ("root", 0.52), ("admin", 0.50),
   ("disconnect", 0.40), ("connect from unknown", 0.65),
   ("accepted publickey", 0.25), ("started session", 0.15),
   ("container started", 0.20), ("user login succeeded", 0.20)]

/-- `SOURCE_RISK` (feature_extractor.py). -/
def sourceRiskTable : List (String × ℚ) :=
  [("sshd", 0.50), ("sudo", 0.60), ("kernel", 0.55),
   ("auditd", 0.55), ("postfix", 0.45), ("nginx", 0.40),
   ("cron", 0.15), ("systemd", 0.15), ("dockerd", 0.20),
   ("app-worker", 0.45)]

def failureTokens : List String := ["failed", "failure", "denied", "rejected"]
def privilegeTokens : List String := ["sudo", "root", "admin", "privilege"]
def authTokens : List String := ["ssh", "publickey", "password", "login"]

/-- `SEVERITY_MAP.get(severity, 1)` with the map's `None: 1` entry. -/
def severityLevelNat : Option String → ℕ
  | none => 1
  | some v =>
      if v = "CRITICAL" then 5
      else if v = "HIGH" then 4
      else if v = "ERROR" then 4
      else if v = "MEDIUM" then 3
      else if v = "WARN" then 3
      else if v = "WARNING" then 3
      else if v = "LOW" then 2
      else if v = "INFO" then 1
      else if v = "DEBUG" then 0
      else 1

/-- Dict lookup with default. -/
def lookupD (tbl : List (String × ℚ)) (k : String) (d : ℚ) : ℚ :=
  match tbl.find? (fun kv => kv.1 == k) with
  | some kv => kv.2
  | none => d

/-- `sorted(set(...))` — the batch-local encoder key list. -/
def encoderKeys (xs : List String) : List String :=
  List.insertionSort (fun a b => a ≤ b) xs.dedup

/-- `max over matching keywords of weight, else 0` (vectorized
np.where/np.maximum loop over `RISK_KEYWORDS`). -/
def keywordRisk (msgLower : List Char) : ℚ :=
  riskKeywords.foldl
    (fun acc kv => if containsSub msgLower kv.1.data then max acc kv.2 else acc) 0

/-- Deterministic stand-in for Python's randomized `hash(str(x))`. -/
def pyHashModel (s : String) : ℕ :=
  s.data.foldl (fun h c => h * 31 + c.toNat) 7

def anyTokenIn (tokens : List String) (msg : List Char) : Bool :=
  tokens.any (fun t => containsSub msg t.data)

/-- A 1-to-3-digit group. -/
def isOctet (g : String) : Bool :=
  decide (1 ≤ g.length) && decide (g.length ≤ 3) && g.data.all Char.isDigit

/-- Executable approximation of `IP_REGEX` (four dotted 1-3 digit groups
delimited by non-word characters). -/
def hasIpLike (s : String) : Bool :=
  (((s.split (fun c => !(c.isDigit || c == '.'))).filter (fun t => !t.isEmpty)).any
    (fun t =>
      match t.splitOn "." with
      | [a, b, c, d] => isOctet a && isOctet b && isOctet c && isOctet d
      | _ => false))

/-- After a literal "port": at least one whitespace character, then a digit
(executable approximation of `PORT_REGEX`). -/
def portTail (l : List Char) : Bool :=
  match l with
  | c :: rest =>
      c.isWhitespace &&
        (match rest.dropWhile Char.isWhitespace with
         | d :: _ => d.isDigit
         | [] => false)
  | [] => false

def hasPortLike : List Char → Bool
  | 'p' :: 'o' :: 'r' :: 't' :: rest =>
      portTail rest || hasPortLike ('o' :: 'r' :: 't' :: rest)
  | _ :: rest => hasPortLike rest
  | [] => false

def boolToQ (b : Bool) : ℚ := if b then 1 else 0

/-- Python `len(m.split())` capped at 50: whitespace-run split, empties
dropped. -/
def wordCount (m : String) : ℕ :=
  min ((m.split Char.isWhitespace).filter (fun t => !t.isEmpty)).length 50

/-- The fixed feature-name vector (`_build_encoders`). -/
def featureNames : List String :=
  ["hour_of_day", "day_of_week", "after_hours",
   "severity_level", "source_encoded", "source_risk",
   "event_type_encoded", "message_length", "word_count",
   "keyword_risk", "event_id_hash",
   "has_username", "has_hostname", "has_process", "process_id_norm",
   "has_failure_signal", "has_privilege_signal", "has_auth_signal",
   "has_ip_address", "has_port_number"]

/-- One row of the feature matrix, in `np.column_stack` order. -/
def featureRow (srcKeys etKeys : List String) (l : LogRec) : List ℚ :=
  let msg := l.message.getD ""
  let msgLower := (strLower msg).data
  let hour : ℕ := match l.timestamp with | some t => t.hour | none => 12
  let weekday : ℕ := match l.timestamp with | some t => t.weekday | none => 0
  [(hour : ℚ),
   (weekday : ℚ),
   (if hour < 6 ∨ 22 < hour then (1 : ℚ) else 0),
   (severityLevelNat l.severity : ℚ),
   ((srcKeys.indexOf (orDefault l.source "unknown") : ℕ) : ℚ),
   lookupD sourceRiskTable (strLower (orDefault l.source "unknown")) 0.30,
   ((etKeys.indexOf (orDefault l.event_type "unknown") : ℕ) : ℚ),
   (msg.length : ℚ),
   (wordCount msg : ℚ),
   keywordRisk msgLower,
   (if pyTruthy l.event_id then ((pyHashModel (l.event_id.getD "") % 10000 : ℕ) : ℚ) else 0),
   boolToQ (pyTruthy l.username),
   boolToQ (pyTruthy l.hostname),
   boolToQ (pyTruthy l.process_name),
   (match l.process_id with
    | some p => if p = 0 then (0 : ℚ) else ((p % 1000 : ℤ) : ℚ)
    | none => 0),
   boolToQ (anyTokenIn failureTokens msgLower),
   boolToQ (anyTokenIn privilegeTokens msgLower),
   boolToQ (anyTokenIn authTokens msgLower),
   boolToQ (hasIpLike msg),
   boolToQ (hasPortLike msgLower)]

/-- `FeatureExtractor.extract_batch`: on an empty batch it returns
`(np.array([]), [])` — a 1-dimensional empty array and an **empty** name
list; otherwise the N×20 matrix and the 20 feature names. -/
def extract_batch (logs : List LogRec) : List (List ℚ) × List String :=
  match logs with
  | [] => ([], [])
  | _ =>
      let srcKeys := encoderKeys (logs.map (fun l => orDefault l.source "unknown"))
      let etKeys := encoderKeys (logs.map (fun l => orDefault l.event_type "unknown"))
      (logs.map (featureRow srcKeys etKeys), featureNames)

theorem lookupD_nonneg (tbl : List (String × ℚ)) (k : String) (d : ℚ)
    (hd : 0 ≤ d) (ht : ∀ kv ∈ tbl, 0 ≤ kv.2) : 0 ≤ lookupD tbl k d := by
  unfold lookupD
  cases hf : tbl.find? (fun kv => kv.1 == k) with
  | none => exact hd
  | some kv => exact ht kv (List.mem_of_find?_eq_some hf)

theorem keywordRisk_nonneg (msg : List Char) : 0 ≤ keywordRisk msg := by
  unfold keywordRisk
  generalize riskKeywords = tbl
  suffices h : ∀ (t : List (String × ℚ)) (v : ℚ), 0 ≤ v →
      0 ≤ t.foldl (fun acc kv => if containsSub msg kv.1.data then max acc kv.2 else acc) v by
    exact h tbl 0 le_rfl
  intro t
  induction t with
  | nil => intro v hv; exact hv
  | cons kv rest ih =>
      intro v hv
      simp only [List.foldl_cons]
      apply ih
      split_ifs
      · exact le_trans hv (le_max_left _ _)
      · exact hv

theorem boolToQ_nonneg (b : Bool) : 0 ≤ boolToQ b := by
  unfold boolToQ; split_ifs <;> norm_num

/-- C5 counterexample: the empty batch does not yield a 0×20 matrix with a
20-entry name vector — `extract_batch` returns an empty array and an empty
feature-name list. -/
theorem extract_batch_empty_counterexample :
    extract_batch [] = ([], []) ∧ (extract_batch []).2.length ≠ 20 := by
  exact ⟨rfl, by decide⟩

/-- C5 (amended): for every non-empty batch of N ≥ 1 records, feature
extraction returns an N×20 matrix and the 20-entry feature-name vector, and
every matrix entry is a well-defined nonnegative rational (in particular
finite); for N = 0 the function instead returns an empty 1-dimensional
array together with an empty feature-name list. -/
theorem extract_batch_shape_and_finite (logs : List LogRec) (hne : logs ≠ []) :
    (extract_batch logs).1.length = logs.length ∧
    (∀ row ∈ (extract_batch logs).1, row.length = 20) ∧
    (extract_batch logs).2 = featureNames ∧
    (extract_batch logs).2.length = 20 ∧
    (∀ row ∈ (extract_batch logs).1, ∀ x ∈ row, 0 ≤ x) := by
  obtain ⟨l0, rest, rfl⟩ : ∃ l0 rest, logs = l0 :: rest := by
    cases logs with
    | nil => exact absurd rfl hne
    | cons a as => exact ⟨a, as, rfl⟩
  refine ⟨by simp [extract_batch], ?_, rfl, rfl, ?_⟩
  · intro row hrow
    simp only [extract_batch, List.mem_map] at hrow
    obtain ⟨l, _, rfl⟩ := hrow
    rfl
  · intro row hrow x hx
    simp only [extract_batch, List.mem_map] at hrow
    obtain ⟨l, _, rfl⟩ := hrow
    simp only [featureRow, List.mem_cons, List.not_mem_nil, or_false] at hx
    rcases hx with rfl | rfl | rfl | rfl | rfl | rfl | rfl | rfl | rfl | rfl |
      rfl | rfl | rfl | rfl | rfl | rfl | rfl | rfl | rfl | rfl
    · positivity
    · positivity
    · split_ifs <;> norm_num
    · positivity
    · positivity
    · refine lookupD_nonneg _ _ _ (by norm_num) ?_
      intro kv hkv
      fin_cases hkv <;> norm_num
    · positivity
    · positivity
    · positivity
    · exact keywordRisk_nonneg _
    · split_ifs <;> positivity
    · exact boolToQ_nonneg _
    · exact boolToQ_nonneg _
    · exact boolToQ_nonneg _
    · cases hp : l.process_id with
      | none => norm_num
      | some p =>
          simp only []
          split_ifs
          · norm_num
          · exact_mod_cast Int.emod_nonneg p (by norm_num)
    · exact boolToQ_nonneg _
    · exact boolToQ_nonneg _
    · exact boolToQ_nonneg _
    · exact boolToQ_nonneg _
    · exact boolToQ_nonneg _

/-- A concrete log record for the C5 witness batch. -/
def exampleLogRec : LogRec :=
  { timestamp := none
    source := some "sshd"
    event_id := none
    event_type := none
    severity := some "INFO"
    message := some "Failed password for root"
    hostname := none
    username := some "root"
    process_name := none
    process_id := some 4242 }

/-- C5 witness: the amended theorem at a concrete one-record batch. -/
theorem extract_batch_shape_witness :
    ([exampleLogRec] : List LogRec) ≠ [] ∧
    (extract_batch [exampleLogRec]).1.length = 1 ∧
    (extract_batch [exampleLogRec]).2.length = 20 := by
  have H := extract_batch_shape_and_finite [exampleLogRec] (by simp)
  exact ⟨by simp, by simpa using H.1, H.2.2.2.1⟩

/-! ## Score calibration (`EnsembleDetector._redistribute_scores`)

Scores live in ℝ (the sigmoid is transcendental, so this part of the model
is necessarily non-executable).  numpy's `argsort(argsort(scores))` is
modelled by the stable rank of the lexicographic (value, index) order —
identical to numpy on distinct values, and a fixed deterministic tie-break
otherwise. -/

noncomputable def sigmoid (x : ℝ) : ℝ := 1 / (1 + Real.exp (-x))

noncomputable def listMin : List ℝ → ℝ
  | [] => 0
  | x :: xs => xs.foldl min x

noncomputable def listMax : List ℝ → ℝ
  | [] => 0
  | x :: xs => xs.foldl max x

/-- The lexicographic (value, original index) strict order behind a stable
argsort; out-of-range indices read a default of 0 and never occur in the
theorems. -/
def lexLt (s : List ℝ) (i j : ℕ) : Prop :=
  s.getD i 0 < s.getD j 0 ∨ (s.getD i 0 = s.getD j 0 ∧ i < j)

noncomputable instance lexLtDec (s : List ℝ) (i j : ℕ) : Decidable (lexLt s i j) := by
  unfold lexLt
  infer_instance

/-- `argsort(argsort(s))[i]`: the number of positions strictly before `i`
in the stable sort order. -/
noncomputable def stableRank (s : List ℝ) (i : ℕ) : ℕ :=
  ((Finset.range s.length).filter (fun k => lexLt s k i)).card

/-- `np.linspace(0.1, 0.9, n)[k]`. -/
noncomputable def linspaceVal (n k : ℕ) : ℝ :=
  if n ≤ 1 then 0.1 else 0.1 + 0.8 * k / ((n : ℝ) - 1)

/-- `EnsembleDetector._redistribute_scores`: empty in, empty out; a spread
below 1e-8 yields the linspace fallback reordered by the stable argsort
ranks; otherwise min-max normalize, sigmoid with slope 6 around 0.5, and
rescale to [0.1, 0.99]. -/
noncomputable def redistributeScores (s : List ℝ) : List ℝ :=
  if s.length = 0 then s
  else if listMax s - listMin s < 1e-8 then
    (List.range s.length).map (fun i => linspaceVal s.length (stableRank s i))
  else
    s.map (fun x =>
      0.1 + 0.89 * sigmoid (6 * ((x - listMin s) / (listMax s - listMin s) - 0.5)))

theorem listMin_le (l : List ℝ) (x : ℝ) (hx : x ∈ l) : listMin l ≤ x := by
  cases l with
  | nil => cases hx
  | cons y ys =>
      suffices h : ∀ (xs : List ℝ) (a : ℝ),
          xs.foldl min a ≤ a ∧ ∀ z ∈ xs, xs.foldl min a ≤ z by
        rcases List.mem_cons.mp hx with rfl | hmem
        · exact (h ys x).1
        · exact (h ys y).2 x hmem
      intro xs
      induction xs with
      | nil => intro a; exact ⟨le_rfl, by simp⟩
      | cons z zs ih =>
          intro a
          refine ⟨le_trans (ih (min a z)).1 (min_le_left _ _), ?_⟩
          intro w hw
          rcases List.mem_cons.mp hw with rfl | hmem
          · exact le_trans (ih (min a w)).1 (min_le_right _ _)
          · exact (ih (min a z)).2 w hmem

theorem le_listMax (l : List ℝ) (x : ℝ) (hx : x ∈ l) : x ≤ listMax l := by
  cases l with
  | nil => cases hx
  | cons y ys =>
      suffices h : ∀ (xs : List ℝ) (a : ℝ),
          a ≤ xs.foldl max a ∧ ∀ z ∈ xs, z ≤ xs.foldl max a by
        rcases List.mem_cons.mp hx with rfl | hmem
        · exact (h ys x).1
        · exact (h ys y).2 x hmem
      intro xs
      induction xs with
      | nil => intro a; exact ⟨le_rfl, by simp⟩
      | cons z zs ih =>
          intro a
          refine ⟨le_trans (le_max_left _ _) (ih (max a z)).1, ?_⟩
          intro w hw
          rcases List.mem_cons.mp hw with rfl | hmem
          · exact le_trans (le_max_right _ _) (ih (max a w)).1
          · exact (ih (max a z)).2 w hmem

theorem lexLt_irrefl (s : List ℝ) (i : ℕ) : ¬ lexLt s i i := by
  rintro (h | ⟨-, h⟩)
  · exact lt_irrefl _ h
  · exact lt_irrefl _ h

theorem lexLt_total (s : List ℝ) {i j : ℕ} (h : i ≠ j) :
    lexLt s i j ∨ lexLt s j i := by
  rcases lt_trichotomy (s.getD i 0) (s.getD j 0) with hv | hv | hv
  · exact Or.inl (Or.inl hv)
  · rcases lt_or_gt_of_ne h with hij | hij
    · exact Or.inl (Or.inr ⟨hv, hij⟩)
    · exact Or.inr (Or.inr ⟨hv.symm, hij⟩)
  · exact Or.inr (Or.inl hv)

theorem lexLt_trans (s : List ℝ) {i j k : ℕ} (h1 : lexLt s i j) (h2 : lexLt s j k) :
    lexLt s i k := by
  rcases h1 with h1 | ⟨e1, l1⟩ <;> rcases h2 with h2 | ⟨e2, l2⟩
  · exact Or.inl (lt_trans h1 h2)
  · exact Or.inl (e2 ▸ h1)
  · exact Or.inl (e1 ▸ h2)
  · exact Or.inr ⟨e1.trans e2, lt_trans l1 l2⟩

theorem stableRank_lt_of_lexLt (s : List ℝ) {i j : ℕ}
    (hi : i < s.length) (h : lexLt s i j) :
    stableRank s i < stableRank s j := by
  unfold stableRank
  apply Finset.card_lt_card
  rw [Finset.ssubset_iff_of_subset]
  · exact ⟨i, Finset.mem_filter.mpr ⟨Finset.mem_range.mpr hi, h⟩,
      fun hmem => lexLt_irrefl s i (Finset.mem_filter.mp hmem).2⟩
  · intro k hk
    rcases Finset.mem_filter.mp hk with ⟨hkr, hkl⟩
    exact Finset.mem_filter.mpr ⟨hkr, lexLt_trans s hkl h⟩

theorem lexLt_iff_rank_lt (s : List ℝ) {i j : ℕ}
    (hi : i < s.length) (hj : j < s.length) :
    lexLt s i j ↔ stableRank s i < stableRank s j := by
  constructor
  · exact stableRank_lt_of_lexLt s hi
  · intro hr
    by_contra hlex
    rcases eq_or_ne i j with rfl | hne
    · exact lt_irrefl _ hr
    · rcases lexLt_total s hne with h | h
      · exact hlex h
      · exact lt_asymm hr (stableRank_lt_of_lexLt s hj h)

theorem stableRank_inj (s : List ℝ) {i j : ℕ}
    (hi : i < s.length) (hj : j < s.length)
    (h : stableRank s i = stableRank s j) : i = j := by
  by_contra hne
  rcases lexLt_total s hne with hl | hl
  · exact absurd h (Nat.ne_of_lt (stableRank_lt_of_lexLt s hi hl))
  · exact absurd h.symm (Nat.ne_of_lt (stableRank_lt_of_lexLt s hj hl))

theorem stableRank_lt_length (s : List ℝ) {i : ℕ} (hi : i < s.length) :
    stableRank s i < s.length := by
  unfold stableRank
  calc ((Finset.range s.length).filter (fun k => lexLt s k i)).card
      ≤ ((Finset.range s.length).erase i).card := by
        apply Finset.card_le_card
        intro k hk
        rcases Finset.mem_filter.mp hk with ⟨hkr, hkl⟩
        exact Finset.mem_erase.mpr ⟨fun he => lexLt_irrefl s i (he ▸ hkl), hkr⟩
    _ < s.length := by
        rw [Finset.card_erase_of_mem (Finset.mem_range.mpr hi), Finset.card_range]
        omega

theorem stableRank_congr (c s : List ℝ) (hlen : c.length = s.length)
    (h : ∀ k i, k < s.length → i < s.length → (lexLt c k i ↔ lexLt s k i)) :
    ∀ i < s.length, stableRank c i = stableRank s i := by
  intro i hi
  unfold stableRank
  rw [hlen]
  congr 1
  apply Finset.filter_congr
  intro k hk
  simpa using h k i (Finset.mem_range.mp hk) hi

theorem getD_map_of_lt (f : ℝ → ℝ) (l : List ℝ) (i : ℕ) (h : i < l.length) :
    (l.map f).getD i 0 = f (l.getD i 0) := by
  rw [List.getD_eq_getElem _ _ (by simpa using h), List.getD_eq_getElem _ _ h,
    List.getElem_map]

theorem getD_map_range (f : ℕ → ℝ) (n i : ℕ) (h : i < n) :
    ((List.range n).map f).getD i 0 = f i := by
  rw [List.getD_eq_getElem _ _ (by simpa using h), List.getElem_map,
    List.getElem_range]

theorem sigmoid_pos (x : ℝ) : 0 < sigmoid x := by
  unfold sigmoid
  positivity

theorem sigmoid_lt_one (x : ℝ) : sigmoid x < 1 := by
  unfold sigmoid
  rw [div_lt_one (by positivity)]
  linarith [Real.exp_pos (-x)]

theorem sigmoid_strictMono : StrictMono sigmoid := by
  intro a b hab
  unfold sigmoid
  have h1 : (1 : ℝ) + Real.exp (-b) < 1 + Real.exp (-a) := by
    linarith [Real.exp_lt_exp.mpr (neg_lt_neg hab)]
  exact div_lt_div_of_pos_left one_pos (by positivity) h1

/-- Strict monotonicity of the linspace values once `n ≥ 2`. -/
theorem linspaceVal_strictMono {n : ℕ} (hn : ¬ n ≤ 1) :
    StrictMono (linspaceVal n) := by
  intro a b hab
  unfold linspaceVal
  rw [if_neg hn, if_neg hn]
  have hpos : (0 : ℝ) < (n : ℝ) - 1 := by
    have h2 : (2 : ℕ) ≤ n := by omega
    have : (2 : ℝ) ≤ (n : ℝ) := by exact_mod_cast h2
    linarith
  have hcast : (a : ℝ) < (b : ℝ) := by exact_mod_cast hab
  have hlt : 0.8 * (a : ℝ) / ((n : ℝ) - 1) < 0.8 * (b : ℝ) / ((n : ℝ) - 1) :=
    (div_lt_div_iff_of_pos_right hpos).mpr (by linarith)
  linarith

/-- Entry bounds for the linspace fallback. -/
theorem linspaceVal_bounds {n k : ℕ} (hk : k < n) :
    0.1 ≤ linspaceVal n k ∧ linspaceVal n k ≤ 0.9 := by
  unfold linspaceVal
  split_ifs with h1
  · norm_num
  · have hpos : (0 : ℝ) < (n : ℝ) - 1 := by
      have h2 : (2 : ℕ) ≤ n := by omega
      have : (2 : ℝ) ≤ (n : ℝ) := by exact_mod_cast h2
      linarith
    constructor
    · have : (0 : ℝ) ≤ 0.8 * (k : ℝ) / ((n : ℝ) - 1) := by positivity
      linarith
    · have hk1 : (k : ℝ) ≤ (n : ℝ) - 1 := by
        have : (k : ℕ) + 1 ≤ n := hk
        have hc : ((k : ℕ) : ℝ) + 1 ≤ (n : ℝ) := by exact_mod_cast this
        linarith
      have : 0.8 * (k : ℝ) / ((n : ℝ) - 1) ≤ 0.8 := by
        rw [div_le_iff hpos]
        nlinarith
      linarith

/-- C3: calibration returns a vector of the input's length whose entries all
lie in [0.1, 0.99] and whose stable argsort ranks equal those of the input;
on a spread below 1e-8 it is the linspace fallback reordered by those ranks,
and otherwise it is `0.1 + 0.89·σ(6·(minmax(x) − 0.5))` applied entrywise. -/
theorem calibration_bounds_and_rank (s : List ℝ) (hne : s ≠ []) :
    (redistributeScores s).length = s.length ∧
    (∀ c ∈ redistributeScores s, 0.1 ≤ c ∧ c ≤ 0.99) ∧
    (∀ i < s.length, stableRank (redistributeScores s) i = stableRank s i) ∧
    (listMax s - listMin s < 1e-8 →
      redistributeScores s =
        (List.range s.length).map (fun i => linspaceVal s.length (stableRank s i))) ∧
    (¬ listMax s - listMin s < 1e-8 →
      redistributeScores s = s.map (fun x =>
        0.1 + 0.89 * sigmoid (6 * ((x - listMin s) / (listMax s - listMin s) - 0.5)))) := by
  have hn : s.length ≠ 0 := fun h => hne (List.length_eq_zero.mp h)
  by_cases hc : listMax s - listMin s < 1e-8
  · -- constant-spread branch: linspace fallback reordered by stable ranks
    have hred : redistributeScores s =
        (List.range s.length).map (fun i => linspaceVal s.length (stableRank s i)) := by
      simp [redistributeScores, hn, hc]
    refine ⟨by rw [hred]; simp, ?_, ?_, fun _ => hred, fun h => absurd hc h⟩
    · intro c hcmem
      rw [hred] at hcmem
      rcases List.mem_map.mp hcmem with ⟨i, hi, rfl⟩
      have hi' : i < s.length := List.mem_range.mp hi
      have hb := linspaceVal_bounds (stableRank_lt_length s hi')
      exact ⟨hb.1, by linarith [hb.2]⟩
    · intro i hi
      apply stableRank_congr _ _ (by rw [hred]; simp) ?_ i hi
      intro k j hk hj
      rw [hred]
      have hgk := getD_map_range (fun i => linspaceVal s.length (stableRank s i)) _ _ hk
      have hgj := getD_map_range (fun i => linspaceVal s.length (stableRank s i)) _ _ hj
      unfold lexLt
      rw [hgk, hgj]
      rcases eq_or_ne k j with rfl | hkj
      · simp
      · by_cases h1 : s.length ≤ 1
        · omega
        · have hmono := linspaceVal_strictMono (n := s.length) h1
          rw [hmono.lt_iff_lt, hmono.injective.eq_iff]
          constructor
          · rintro (hlt | ⟨heq, -⟩)
            · exact (lexLt_iff_rank_lt s hk hj).mpr hlt
            · exact absurd (stableRank_inj s hk hj heq) hkj
          · intro hlex
            exact Or.inl ((lexLt_iff_rank_lt s hk hj).mp hlex)
  · -- sigmoid branch
    have hd : (0 : ℝ) < listMax s - listMin s := by
      have : (1e-8 : ℝ) ≤ listMax s - listMin s := not_lt.mp hc
      nlinarith
    have hred : redistributeScores s = s.map (fun x =>
        0.1 + 0.89 * sigmoid (6 * ((x - listMin s) / (listMax s - listMin s) - 0.5))) := by
      simp [redistributeScores, hn, hc]
    have hf : StrictMono (fun x : ℝ =>
        0.1 + 0.89 * sigmoid (6 * ((x - listMin s) / (listMax s - listMin s) - 0.5))) := by
      intro a b hab
      have h1 : (a - listMin s) / (listMax s - listMin s) <
          (b - listMin s) / (listMax s - listMin s) :=
        (div_lt_div_iff_of_pos_right hd).mpr (by linarith)
      have h2 := sigmoid_strictMono (show
          6 * ((a - listMin s) / (listMax s - listMin s) - 0.5) <
          6 * ((b - listMin s) / (listMax s - listMin s) - 0.5) by linarith)
      simpa using by linarith
    refine ⟨by rw [hred]; simp, ?_, ?_, fun h => absurd h hc, fun _ => hred⟩
    · intro c hcmem
      rw [hred] at hcmem
      rcases List.mem_map.mp hcmem with ⟨x, hx, rfl⟩
      have hp := sigmoid_pos (6 * ((x - listMin s) / (listMax s - listMin s) - 0.5))
      have h1 := sigmoid_lt_one (6 * ((x - listMin s) / (listMax s - listMin s) - 0.5))
      constructor <;> [linarith; linarith]
    · intro i hi
      apply stableRank_congr _ _ (by rw [hred]; simp) ?_ i hi
      intro k j hk hj
      rw [hred]
      rw [lexLt, lexLt, getD_map_of_lt _ _ _ hk, getD_map_of_lt _ _ _ hj,
        hf.lt_iff_lt, hf.injective.eq_iff]

/-- C3 witness: the calibration theorem at the concrete score vector
[0, 1]. -/
theorem calibration_witness :
    (([0, 1] : List ℝ) ≠ []) ∧
    (redistributeScores ([0, 1] : List ℝ)).length = 2 ∧
    (∀ c ∈ redistributeScores ([0, 1] : List ℝ), 0.1 ≤ c ∧ c ≤ 0.99) := by
  have H := calibration_bounds_and_rank ([0, 1] : List ℝ) (by simp)
  exact ⟨by simp, by simpa using H.1, H.2.1⟩

/-! ## Percentile labelling (`EnsembleDetector.detect` /
`_hybrid_ensemble_detect`)

After calibration both paths run
`threshold = np.percentile(final_scores, 85)` and
`predictions = np.where(final_scores >= threshold, -1, 1)` — the base
detectors' own labels are discarded.  `np.percentile` is modelled with its
default linear interpolation over the ascending sort of the input. -/

noncomputable def sortedScores (v : List ℝ) : List ℝ :=
  List.insertionSort (· ≤ ·) v

/-- `np.percentile(v, q)` with linear interpolation. -/
noncomputable def npPercentile (v : List ℝ) (q : ℝ) : ℝ :=
  let a := sortedScores v
  let pos : ℝ := q / 100 * ((v.length : ℝ) - 1)
  let lo : ℕ := ⌊pos⌋₊
  a.getD lo 0 + (pos - (lo : ℝ)) * (a.getD (lo + 1) (a.getD lo 0) - a.getD lo 0)

/-- `np.where(final_scores >= threshold, -1, 1)` at the 85th percentile of
the same calibrated vector. -/
noncomputable def percentileLabels (v : List ℝ) : List ℤ :=
  v.map (fun x => if npPercentile v 85 ≤ x then -1 else 1)

/-- How many entries are labelled −1. -/
noncomputable def anomalyLabelCount (v : List ℝ) : ℕ :=
  (percentileLabels v).count (-1)

theorem anomalyLabelCount_eq_countP (v : List ℝ) :
    anomalyLabelCount v = v.countP (fun x => decide (npPercentile v 85 ≤ x)) := by
  unfold anomalyLabelCount percentileLabels
  rw [List.count, List.countP_map]
  apply List.countP_congr
  intro x hx
  by_cases h : npPercentile v 85 ≤ x <;> simp [h]

/-- Counting `≥ t` in a list that is below `t` before index `I` and at or
above `t` from index `I` on. -/
theorem countP_ge_split (a : List ℝ) (t : ℝ) (I : ℕ) (hI : I ≤ a.length)
    (hlt : ∀ k, k < I → a.getD k 0 < t)
    (hge : ∀ k, I ≤ k → k < a.length → t ≤ a.getD k 0) :
    a.countP (fun x => decide (t ≤ x)) = a.length - I := by
  conv_lhs => rw [(List.take_append_drop I a).symm]
  rw [List.countP_append]
  have h1 : (a.take I).countP (fun x => decide (t ≤ x)) = 0 := by
    rw [List.countP_eq_zero]
    intro x hx
    rcases List.mem_iff_getElem.mp hx with ⟨k, hk, rfl⟩
    have hk' : k < I ∧ k < a.length := by
      simpa [List.length_take, Nat.lt_min] using hk
    have hxk : (a.take I)[k] = a.getD k 0 := by
      rw [List.getElem_take, List.getD_eq_getElem _ _ hk'.2]
    rw [hxk]
    simpa using not_le.mpr (hlt k hk'.1)
  have h2 : (a.drop I).countP (fun x => decide (t ≤ x)) = (a.drop I).length := by
    rw [List.countP_eq_length]
    intro x hx
    rcases List.mem_iff_getElem.mp hx with ⟨k, hk, rfl⟩
    have hk0 : k < a.length - I := by simpa [List.length_drop] using hk
    have hk' : I + k < a.length := by omega
    have hxk : (a.drop I)[k] = a.getD (I + k) 0 := by
      rw [List.getElem_drop, List.getD_eq_getElem _ _ hk']
    rw [hxk]
    simpa using hge (I + k) (Nat.le_add_right _ _) hk'
  rw [h1, h2, List.length_drop]
  omega

/-- The exact −1 count when the calibrated scores are pairwise distinct:
`N − ⌈0.85·(N−1)⌉`. -/
theorem anomalyLabelCount_nodup (v : List ℝ) (hne : v ≠ []) (hnd : v.Nodup) :
    anomalyLabelCount v =
      v.length - Nat.ceil ((85 : ℝ) / 100 * ((v.length : ℝ) - 1)) := by
  have hn : 1 ≤ v.length := List.length_pos.mpr hne
  have hperm : List.Perm (sortedScores v) v := List.perm_insertionSort _ v
  have hlen : (sortedScores v).length = v.length := hperm.length_eq
  have hsle : (sortedScores v).Sorted (· ≤ ·) := List.sorted_insertionSort _ v
  have hand : (sortedScores v).Nodup := hperm.nodup_iff.mpr hnd
  have hslt : (sortedScores v).Sorted (· < ·) := hsle.lt_of_le hand
  set a := sortedScores v with ha_def
  have hstrict : ∀ i j, i < j → j < a.length →
      a.getD i 0 < a.getD j 0 := by
    intro i j hij hj
    have hi : i < a.length := lt_trans hij hj
    rw [List.getD_eq_getElem _ _ hi, List.getD_eq_getElem _ _ hj]
    exact hslt.rel_get_of_lt (a := ⟨i, hi⟩) (b := ⟨j, hj⟩) hij
  have hmono : ∀ i j, i ≤ j → j < a.length →
      a.getD i 0 ≤ a.getD j 0 := by
    intro i j hij hj
    rcases eq_or_lt_of_le hij with rfl | hlt
    · exact le_rfl
    · exact le_of_lt (hstrict i j hlt hj)
  set pos : ℝ := (85 : ℝ) / 100 * ((v.length : ℝ) - 1) with hpos_def
  have hn1 : (1 : ℝ) ≤ (v.length : ℝ) := by exact_mod_cast hn
  have hpos0 : 0 ≤ pos := by
    rw [hpos_def]
    apply mul_nonneg (by norm_num)
    linarith
  set lo : ℕ := ⌊pos⌋₊ with hlo_def
  have hlo_le : (lo : ℝ) ≤ pos := Nat.floor_le hpos0
  have hpos_le : pos ≤ (v.length : ℝ) - 1 := by
    rw [hpos_def]
    nlinarith
  have hlo_lt_n : lo < v.length := by
    have h1 : (lo : ℝ) ≤ (v.length : ℝ) - 1 := le_trans hlo_le hpos_le
    have h2 : (lo : ℝ) < (v.length : ℝ) := by linarith
    exact_mod_cast h2
  have ht_def : npPercentile v 85 =
      a.getD lo 0 + (pos - (lo : ℝ)) * (a.getD (lo + 1) (a.getD lo 0) - a.getD lo 0) := by
    simp only [npPercentile, ha_def, hpos_def, hlo_def]
  have hcount := (hperm.countP_eq (fun x => decide (npPercentile v 85 ≤ x))).symm
  rw [anomalyLabelCount_eq_countP, hcount]
  rcases eq_or_lt_of_le hlo_le with hfrac | hfrac
  · -- the interpolation weight is zero: the threshold is a[lo]
    have ht : npPercentile v 85 = a.getD lo 0 := by
      rw [ht_def, ← hfrac]
      ring
    have hceil : Nat.ceil pos = lo := by
      rw [← hfrac, Nat.ceil_natCast]
    rw [countP_ge_split a _ lo (by omega)
        (fun k hk => ht ▸ hstrict k lo hk (by omega))
        (fun k hk1 hk2 => ht ▸ hmono lo k hk1 hk2),
      hlen, hceil]
  · -- strictly fractional position: the threshold lies strictly between
    -- a[lo] and a[lo+1]
    have hn2 : 2 ≤ v.length := by
      by_contra h2
      have hv1 : v.length = 1 := by omega
      have hp0 : pos = 0 := by
        rw [hpos_def, hv1]
        norm_num
      rw [hp0] at hfrac
      have h0 : (0 : ℝ) ≤ (lo : ℝ) := Nat.cast_nonneg lo
      linarith
    have hpos_lt : pos < (v.length : ℝ) - 1 := by
      have h2 : (2 : ℝ) ≤ (v.length : ℝ) := by exact_mod_cast hn2
      rw [hpos_def]
      nlinarith
    have hlo1_lt : lo + 1 < v.length := by
      have h1 : (lo : ℝ) + 1 < (v.length : ℝ) := by linarith
      exact_mod_cast h1
    have hlo1_lt' : lo + 1 < a.length := by rw [hlen]; exact hlo1_lt
    have hfrac_lt1 : pos < (lo : ℝ) + 1 := by
      have := Nat.lt_floor_add_one pos
      rw [← hlo_def] at this
      exact_mod_cast this
    have hgap : a.getD lo 0 < a.getD (lo + 1) 0 :=
      hstrict lo (lo + 1) (Nat.lt_succ_self lo) hlo1_lt'
    have hgd : a.getD (lo + 1) (a.getD lo 0) = a.getD (lo + 1) 0 := by
      rw [List.getD_eq_getElem _ _ hlo1_lt', List.getD_eq_getElem _ _ hlo1_lt']
    rw [hgd] at ht_def
    have ht_lo : a.getD lo 0 < npPercentile v 85 := by
      rw [ht_def]
      nlinarith
    have ht_hi : npPercentile v 85 < a.getD (lo + 1) 0 := by
      rw [ht_def]
      nlinarith
    have hceil : Nat.ceil pos = lo + 1 := by
      rw [Nat.ceil_eq_iff (by omega)]
      constructor
      · simpa using hfrac
      · push_cast
        linarith
    rw [countP_ge_split a _ (lo + 1) (by omega)
        (fun k hk => lt_of_le_of_lt
          (hmono k lo (by omega) (by rw [hlen]; exact hlo_lt_n)) ht_lo)
        (fun k hk1 hk2 => le_of_lt
          (lt_of_lt_of_le ht_hi (hmono (lo + 1) k hk1 hk2))),
      hlen, hceil]

/-- `N − ⌈0.85·(N−1)⌉` is within one of `⌈0.15·N⌉`. -/
theorem count_near_fifteen_percent (n : ℕ) (hn : 1 ≤ n) :
    n - Nat.ceil ((85 : ℝ) / 100 * ((n : ℝ) - 1)) ≤ Nat.ceil ((0.15 : ℝ) * (n : ℝ)) ∧
    Nat.ceil ((0.15 : ℝ) * (n : ℝ)) ≤ (n - Nat.ceil ((85 : ℝ) / 100 * ((n : ℝ) - 1))) + 1 := by
  set pos : ℝ := (85 : ℝ) / 100 * ((n : ℝ) - 1) with hpos_def
  have hn1 : (1 : ℝ) ≤ (n : ℝ) := by exact_mod_cast hn
  have hpos0 : 0 ≤ pos := by
    rw [hpos_def]
    apply mul_nonneg (by norm_num)
    linarith
  set A : ℕ := Nat.ceil pos with hA_def
  have hA1 : pos ≤ (A : ℝ) := Nat.le_ceil pos
  have hA2 : (A : ℝ) < pos + 1 := Nat.ceil_lt_add_one hpos0
  have hAn : A ≤ n := by
    rw [hA_def, Nat.ceil_le]
    push_cast
    rw [hpos_def]
    nlinarith
  have hcast : ((n - A : ℕ) : ℝ) = (n : ℝ) - (A : ℝ) := by
    push_cast [Nat.cast_sub hAn]
    ring
  constructor
  · by_contra hcon
    push_neg at hcon
    have h1 : Nat.ceil ((0.15 : ℝ) * (n : ℝ)) + 1 ≤ n - A := hcon
    have h2 : ((Nat.ceil ((0.15 : ℝ) * (n : ℝ)) : ℕ) : ℝ) + 1 ≤ ((n - A : ℕ) : ℝ) := by
      exact_mod_cast h1
    have h3 : (0.15 : ℝ) * (n : ℝ) ≤ (Nat.ceil ((0.15 : ℝ) * (n : ℝ)) : ℝ) :=
      Nat.le_ceil _
    rw [hcast] at h2
    rw [hpos_def] at hA1
    nlinarith
  · rw [Nat.ceil_le]
    push_cast [Nat.cast_sub hAn]
    rw [hpos_def] at hA2
    nlinarith

/-- C7 (amended): the labels come solely from thresholding the calibrated
scores at their 85th percentile (every label is −1 or +1, independent of
the base detectors' labels).  When the calibrated scores are pairwise
distinct the rule labels exactly `N − ⌈0.85·(N−1)⌉` entries −1, which is
within one of `⌈0.15·N⌉`; with ties, every entry tied at or above the
interpolated percentile is labelled −1, so the count can be as large as N
(see the counterexample). -/
theorem percentile_labels_distinct_amended (v : List ℝ) (hne : v ≠ [])
    (hnd : v.Nodup) :
    anomalyLabelCount v =
      v.length - Nat.ceil ((85 : ℝ) / 100 * ((v.length : ℝ) - 1)) ∧
    anomalyLabelCount v ≤ Nat.ceil ((0.15 : ℝ) * (v.length : ℝ)) ∧
    Nat.ceil ((0.15 : ℝ) * (v.length : ℝ)) ≤ anomalyLabelCount v + 1 ∧
    (∀ l ∈ percentileLabels v, l = -1 ∨ l = 1) := by
  have hn : 1 ≤ v.length := List.length_pos.mpr hne
  have hc := anomalyLabelCount_nodup v hne hnd
  have hb := count_near_fifteen_percent v.length hn
  refine ⟨hc, by rw [hc]; exact hb.1, by rw [hc]; exact hb.2, ?_⟩
  intro l hl
  rcases List.mem_map.mp hl with ⟨x, -, rfl⟩
  by_cases h : npPercentile v 85 ≤ x
  · exact Or.inl (by simp [h])
  · exact Or.inr (by simp [h])

/-- With nine copies of `A` and one larger `B`, the interpolated 85th
percentile lands on `A` itself, so every entry is labelled −1. -/
theorem count_all_of_tied (A B : ℝ) (hAB : A < B) :
    anomalyLabelCount [A, A, A, A, A, A, A, A, A, B] = 10 := by
  have hsorted : ([A, A, A, A, A, A, A, A, A, B] : List ℝ).Sorted (· ≤ ·) := by
    simp [List.sorted_cons, hAB.le]
  have hsorteq : sortedScores [A, A, A, A, A, A, A, A, A, B]
      = [A, A, A, A, A, A, A, A, A, B] :=
    List.Sorted.insertionSort_eq hsorted
  have hfloor : ⌊(153 : ℝ) / 20⌋₊ = 7 := by
    rw [Nat.floor_eq_iff (by norm_num)]
    norm_num
  have ht : npPercentile [A, A, A, A, A, A, A, A, A, B] 85 = A := by
    simp only [npPercentile, hsorteq, List.length_cons, List.length_nil]
    norm_num [hfloor, List.getD_cons_succ, List.getD_cons_zero,
      List.getElem?_cons_succ, List.getElem?_cons_zero]
  unfold anomalyLabelCount percentileLabels
  rw [ht]
  norm_num [le_refl, hAB.le, List.count_cons]

/-- C7 counterexample: the calibrated vector of nine tied low scores and
one high score has N = 10 but the 85th-percentile rule labels all ten
entries −1, not ⌈0.15·10⌉ = 2 (±1): on ties the claimed count bound fails
badly. -/
theorem percentile_ties_counterexample :
    anomalyLabelCount
        (redistributeScores ([0, 0, 0, 0, 0, 0, 0, 0, 0, 1] : List ℝ)) = 10 ∧
    (redistributeScores ([0, 0, 0, 0, 0, 0, 0, 0, 0, 1] : List ℝ)).length = 10 ∧
    Nat.ceil ((0.15 : ℝ) * (10 : ℝ)) = 2 := by
  set s₀ : List ℝ := [0, 0, 0, 0, 0, 0, 0, 0, 0, 1] with hs₀
  have hlen0 : s₀.length = 10 := by rw [hs₀]; rfl
  have hmin : listMin s₀ = 0 := by
    norm_num [hs₀, listMin, List.foldl_cons, List.foldl_nil, min_def]
  have hmax : listMax s₀ = 1 := by
    norm_num [hs₀, listMax, List.foldl_cons, List.foldl_nil, max_def]
  have hcond : ¬ (listMax s₀ - listMin s₀ < 1e-8) := by
    rw [hmin, hmax]
    norm_num
  have hred : redistributeScores s₀ =
      s₀.map (fun x => 0.1 + 0.89 * sigmoid (6 * ((x - 0) / (1 - 0) - 0.5))) := by
    unfold redistributeScores
    rw [if_neg (by rw [hlen0]; norm_num), if_neg hcond]
    simp only [hmin, hmax]
  have hexp : redistributeScores s₀ =
      [(0 : ℝ), 0, 0, 0, 0, 0, 0, 0, 0, 1].map
        (fun x => 0.1 + 0.89 * sigmoid (6 * ((x - 0) / (1 - 0) - 0.5))) := by
    rw [hred, hs₀]
  have harg : 6 * (((0 : ℝ) - 0) / (1 - 0) - 0.5) < 6 * (((1 : ℝ) - 0) / (1 - 0) - 0.5) := by
    norm_num
  have hAB : 0.1 + 0.89 * sigmoid (6 * (((0 : ℝ) - 0) / (1 - 0) - 0.5)) <
      0.1 + 0.89 * sigmoid (6 * (((1 : ℝ) - 0) / (1 - 0) - 0.5)) := by
    have hs := sigmoid_strictMono harg
    linarith
  refine ⟨?_, ?_, ?_⟩
  · rw [hexp]
    simp only [List.map_cons, List.map_nil]
    exact count_all_of_tied _ _ hAB
  · rw [hexp]
    rfl
  · rw [Nat.ceil_eq_iff (by norm_num)]
    norm_num

/-- C7 witness: the amended count at the concrete distinct vector
[0.2, 0.4, 0.6] — exactly one entry is labelled −1. -/
theorem percentile_labels_witness :
    (([0.2, 0.4, 0.6] : List ℝ) ≠ [] ∧ ([0.2, 0.4, 0.6] : List ℝ).Nodup) ∧
    anomalyLabelCount ([0.2, 0.4, 0.6] : List ℝ) =
      3 - Nat.ceil ((85 : ℝ) / 100 * (((3 : ℕ) : ℝ) - 1)) := by
  have h1 : (([0.2, 0.4, 0.6] : List ℝ) ≠ []) := by simp
  have h2 : (([0.2, 0.4, 0.6] : List ℝ)).Nodup := by
    norm_num [List.nodup_cons, List.mem_cons]
  have H := percentile_labels_distinct_amended _ h1 h2
  exact ⟨⟨h1, h2⟩, by simpa using H.1⟩

end Quorum
